import Mathlib

/-!
Verification of the dosage-computation and local-interaction-matching engine
of the drug-tool repository (file `gen.py`).

Modelling conventions (shallow embedding):
* Python floats are modelled as exact rationals represented by explicit
  numerator/denominator pairs (`Q` below) with value-level comparison by
  cross-multiplication; no normalisation is performed, so every operation
  is an `Int`/`Nat` computation the kernel can evaluate.  The multipliers
  `0.6`, `0.75` and the `:.1f` / `:.0f` format specifiers are modelled by
  exact rational arithmetic with round-half-to-even, matching CPython's
  formatting on the decimally-exact values that occur in the rule table.
* Python `re.search` on the three concrete patterns used by the code
  (`(\d+(\.\d+)?)(–(\d+(\.\d+)?))?\s*(mg|mcg|g)/kg`,
  `(\d+)(–(\d+))?\s*(mg|mcg|g)` and `(\d+(\.\d+)?)\s*(mg|mcg|g)`) is
  implemented as a leftmost scan with a deterministic matcher at each start
  position.  For these patterns greedy maximal munch plus ordered
  alternation is equivalent to Python's backtracking search: every
  backtracking alternative (shorter digit run, skipped optional group,
  shorter whitespace run, later unit alternative) is immediately killed by
  the following mandatory token.
* `\d` and `\s` are modelled as ASCII digits / ASCII whitespace and
  `str.lower` as ASCII lowercasing; all strings in the shipped rule table
  and in the claims are ASCII apart from the en-dash, which no class
  touches.
* Python string indices count characters, so string search and slicing are
  modelled on `List Char`, not on UTF-8 byte positions.
-/

/-- An exact rational as an explicit numerator/denominator pair.  All
values constructed by the embedding have a positive denominator; value
comparisons are by cross-multiplication, so representation is irrelevant. -/
structure Q where
  num : Int
  den : Nat
deriving DecidableEq

/-- The rational `n/1`. -/
def Q.ofN (n : Nat) : Q := ⟨n, 1⟩

/-- Value-level strict order `a < b` by cross-multiplication. -/
def Q.blt (a b : Q) : Bool := decide (a.num * (b.den : Int) < b.num * (a.den : Int))

/-- Value-level order `a ≤ b` by cross-multiplication. -/
def Q.ble (a b : Q) : Bool := decide (a.num * (b.den : Int) ≤ b.num * (a.den : Int))

/-- Value-level equality `a == b` (Python float equality). -/
def Q.beq (a b : Q) : Bool := decide (a.num * (b.den : Int) = b.num * (a.den : Int))

/-- Product of two rationals. -/
def Q.mul (a b : Q) : Q := ⟨a.num * b.num, a.den * b.den⟩

/-- Division by a (positive) natural number. -/
def Q.divN (a : Q) (n : Nat) : Q := ⟨a.num, a.den * n⟩

/-- Absolute value. -/
def Q.abs (a : Q) : Q := ⟨|a.num|, a.den⟩

/-- ASCII whitespace, the `\s` class restricted to ASCII. -/
def isWsChar (c : Char) : Bool :=
  c = ' ' || c = '\t' || c = '\n' || c = '\r' || c = '\x0b' || c = '\x0c'

/-- Numeric value of a run of ASCII digits. -/
def digitsVal (ds : List Char) : Nat :=
  ds.foldl (fun acc c => acc * 10 + (c.toNat - '0'.toNat)) 0

/-- The rational denoted by integer digits `ds` and fraction digits `fs`
(the value `float(ds ++ "." ++ fs)` of CPython, exactly). -/
def Q.ofDigits (ds fs : List Char) : Q :=
  ⟨(digitsVal ds * 10 ^ fs.length + digitsVal fs : Nat), 10 ^ fs.length⟩

/-- ASCII `str.lower`, character by character (kernel-computable, unlike
`String.map` which recurses on byte positions). -/
def strLower (s : String) : String := String.mk (s.data.map Char.toLower)

/-- `startsWithChars ps cs` holds when `cs` begins with the characters `ps`. -/
def startsWithChars : List Char → List Char → Bool
  | [], _ => true
  | _ :: _, [] => false
  | p :: ps, c :: cs => p == c && startsWithChars ps cs

/-- `stripPre p cs` removes the literal prefix `p` from `cs` if present. -/
def stripPre (p : String) (cs : List Char) : Option (List Char) :=
  if startsWithChars p.data cs then some (cs.drop p.length) else none

/-- First character index at which `needle` occurs in `hay`
(Python `str.find`, with `none` for `-1`). -/
def subIndex (needle : List Char) : List Char → Option Nat
  | [] => if needle.isEmpty then some 0 else none
  | c :: rest =>
    if startsWithChars needle (c :: rest) then some 0
    else (subIndex needle rest).map (· + 1)

/-- Leftmost-match search: run the position matcher `m` at every suffix of
the subject, leftmost success first (the scan of `re.search`). -/
def searchWith {α : Type} (m : List Char → Option α) : List Char → Option α
  | [] => m []
  | c :: rest =>
    match m (c :: rest) with
    | some r => some r
    | none => searchWith m rest

/-- The text of `s` that follows the first occurrence of the substring `t`
(the whole of `s` if `t` does not occur). -/
def textAfterFirst (s t : String) : String :=
  match subIndex t.data s.data with
  | some i => String.mk (s.data.drop (i + t.length))
  | none => s

/-- Match `\d+(\.\d+)?` at the head of `cs`: greedy integer digits and an
optional committed fraction.  Shorter digit munches always leave a digit as
the next character, which no continuation of the three patterns accepts, so
this is exactly Python's backtracking behaviour. -/
def matchDecimal (cs : List Char) : Option (Q × List Char) :=
  if (cs.takeWhile Char.isDigit).isEmpty then none
  else
    match cs.dropWhile Char.isDigit with
    | '.' :: r2 =>
      if (r2.takeWhile Char.isDigit).isEmpty then
        some (Q.ofN (digitsVal (cs.takeWhile Char.isDigit)), cs.dropWhile Char.isDigit)
      else
        some (Q.ofDigits (cs.takeWhile Char.isDigit) (r2.takeWhile Char.isDigit),
          r2.dropWhile Char.isDigit)
    | r1 => some (Q.ofN (digitsVal (cs.takeWhile Char.isDigit)), r1)

/-- Match `\d+` at the head of `cs` (integer group of the absolute pattern). -/
def matchInt (cs : List Char) : Option (Nat × List Char) :=
  if (cs.takeWhile Char.isDigit).isEmpty then none
  else some (digitsVal (cs.takeWhile Char.isDigit), cs.dropWhile Char.isDigit)

/-- Match the ordered alternation `(mg|mcg|g)` at the head of `cs`. -/
def matchUnit (cs : List Char) : Option (String × List Char) :=
  match stripPre "mg" cs with
  | some r => some ("mg", r)
  | none =>
    match stripPre "mcg" cs with
    | some r => some ("mcg", r)
    | none =>
      match stripPre "g" cs with
      | some r => some ("g", r)
      | none => none

/-- The optional range group `(–(\d+(\.\d+)?))?`: committed when an en-dash
followed by a number is present (skipping it would put the en-dash where
the pattern next requires `\s*` then a unit, which always fails). -/
def rangeStepQ (r1 : List Char) : Option (Option Q × List Char) :=
  match r1 with
  | '–' :: r2 =>
    match matchDecimal r2 with
    | some (h, r) => some (some h, r)
    | none => none
  | _ => some (none, r1)

/-- The optional integer range group `(–(\d+))?` of the absolute pattern. -/
def rangeStepN (r1 : List Char) : Option (Option Nat × List Char) :=
  match r1 with
  | '–' :: r2 =>
    match matchInt r2 with
    | some (h, r) => some (some h, r)
    | none => none
  | _ => some (none, r1)

/-- Match the per-kilogram pattern
`(\d+(\.\d+)?)(–(\d+(\.\d+)?))?\s*(mg|mcg|g)/kg` at the head of `cs`,
returning the groups `(low, high?, unit)`. -/
def matchPerKgAt (cs : List Char) : Option (Q × Option Q × String) := do
  let (low, r1) ← matchDecimal cs
  let (hi, r3) ← rangeStepQ r1
  let (u, r5) ← matchUnit (r3.dropWhile isWsChar)
  match stripPre "/kg" r5 with
  | some _ => some (low, hi, u)
  | none => none

/-- Match the absolute pattern `(\d+)(–(\d+))?\s*(mg|mcg|g)` at the head of
`cs`, returning the groups `(low, high?, unit)`. -/
def matchAbsAt (cs : List Char) : Option (Nat × Option Nat × String) := do
  let (low, r1) ← matchInt cs
  let (hi, r3) ← rangeStepN r1
  let (u, _) ← matchUnit (r3.dropWhile isWsChar)
  some (low, hi, u)

/-- Match the max-dose pattern `(\d+(\.\d+)?)\s*(mg|mcg|g)` at the head of
`cs`, returning the value, the unit and the unconsumed rest. -/
def matchNumUnitAt (cs : List Char) : Option (Q × String × List Char) := do
  let (v, r1) ← matchDecimal cs
  let (u, r3) ← matchUnit (r1.dropWhile isWsChar)
  some (v, u, r3)

/-- Round a non-negative rational to the nearest natural number, ties to
even (the rounding of CPython's fixed-point formatting on exact values).
Representation-independent: it only uses the value `num/den`. -/
def roundHalfEvenNonneg (q : Q) : Nat :=
  let n := q.num.toNat
  let d := q.den
  let f := n / d
  let r := n % d
  if 2 * r < d then f else if d < 2 * r then f + 1 else if f % 2 = 0 then f else f + 1

/-- Python `f"{q:.1f}"` on an exact rational. -/
def formatF1 (q : Q) : String :=
  let sign := if Q.blt q (Q.ofN 0) then "-" else ""
  let n := roundHalfEvenNonneg (Q.mul (Q.abs q) (Q.ofN 10))
  sign ++ toString (n / 10) ++ "." ++ toString (n % 10)

/-- Python `f"{q:.0f}"` on an exact rational. -/
def formatF0 (q : Q) : String :=
  let sign := if Q.blt q (Q.ofN 0) then "-" else ""
  sign ++ toString (roundHalfEvenNonneg (Q.abs q))

/-- `gen.py`, `calculate_dose(dose_str, weight, age)`: per-kilogram scaling
when the `/kg` pattern matches, conservative fixed-dose selection when the
absolute pattern matches, verbatim pass-through otherwise.  The suffix is
sliced after the first occurrence of `unit + "/kg"` (resp. `unit`), exactly
as the Python `dose_str.find(...)` does; when `find` returns `-1` the slice
offsets collapse to `len(unit)+2` (resp. `len(unit)-1`). -/
def calculate_dose (dose_str : String) (weight age : Q) : String :=
  match searchWith matchPerKgAt dose_str.data with
  | some (low, hiOpt, unit) =>
    let high := hiOpt.getD low
    let dose_low := Q.mul low weight
    let dose_high := Q.mul high weight
    let calc_dose :=
      if Q.beq dose_low dose_high then formatF1 dose_low ++ " " ++ unit
      else formatF1 dose_low ++ "–" ++ formatF1 dose_high ++ " " ++ unit
    let suffix :=
      match subIndex (unit ++ "/kg").data dose_str.data with
      | some i => String.mk (dose_str.data.drop (i + unit.length + 3))
      | none => String.mk (dose_str.data.drop (unit.length + 2))
    calc_dose ++ suffix
  | none =>
    match searchWith matchAbsAt dose_str.data with
    | some (low, hiOpt, unit) =>
      let high := hiOpt.getD low
      let chosen := if Q.ble (Q.ofN 65) age then low else (low + high) / 2
      let suffix :=
        match subIndex unit.data dose_str.data with
        | some i => String.mk (dose_str.data.drop (i + unit.length))
        | none => String.mk (dose_str.data.drop (unit.length - 1))
      toString chosen ++ " " ++ unit ++ suffix
    | none => dose_str

/-- `gen.py`, `adjust_max_for_age_weight(max_str, age, weight)`: extract the
first number-and-unit, convert grams to milligrams, apply the age band
reduction (≥80 → ×0.6, else ≥65 → ×0.75) and the low-weight reduction
(<50 → ×0.75), and reformat with the `(adjusted)` suffix. -/
def adjust_max_for_age_weight (max_str : String) (age weight : Q) : String :=
  match searchWith matchNumUnitAt max_str.data with
  | none => max_str
  | some (v, original_unit, _) =>
    let vu := if original_unit = "g" then (Q.mul v (Q.ofN 1000), "mg") else (v, original_unit)
    let value1 :=
      if Q.ble (Q.ofN 80) age then Q.mul vu.1 ⟨6, 10⟩
      else if Q.ble (Q.ofN 65) age then Q.mul vu.1 ⟨75, 100⟩
      else vu.1
    let value2 := if Q.blt weight (Q.ofN 50) then Q.mul value1 ⟨75, 100⟩ else value1
    if original_unit = "g" ∨ (vu.2 = "mg" ∧ Q.ble (Q.ofN 1000) value2) then
      formatF1 (Q.divN value2 1000) ++ " g/day (adjusted)"
    else
      formatF0 value2 ++ " " ++ vu.2 ++ "/day (adjusted)"

/-- `gen.py`, `estimate_weight_by_age(age_years)` (`0.1` is `1/10`). -/
def estimate_weight_by_age (age_years : Q) : Q :=
  if Q.blt age_years ⟨1, 10⟩ then Q.ofN 4
  else if Q.blt age_years (Q.ofN 1) then Q.ofN 8
  else if Q.blt age_years (Q.ofN 5) then Q.ofN 15
  else if Q.blt age_years (Q.ofN 12) then Q.ofN 35
  else Q.ofN 70

/-- One age band of the dose-rule table (`age_min` inclusive, `age_max`
exclusive, dose text and maximum text). -/
structure DoseRule where
  age_min : Q
  age_max : Q
  dose : String
  max : String
deriving DecidableEq

/-- `gen.py`, the static `medications` table (`0.5` is `5/10`). -/
def medications : List (String × List DoseRule) :=
  [ ("paracetamol",
      [ ⟨Q.ofN 0, Q.ofN 1, "10 mg/kg every 6h", "40 mg/kg/day"⟩,
        ⟨Q.ofN 1, Q.ofN 12, "15 mg/kg every 6h", "60 mg/kg/day"⟩,
        ⟨Q.ofN 12, Q.ofN 200, "500–1000 mg every 6h", "4 g/day"⟩ ]),
    ("ibuprofen",
      [ ⟨⟨5, 10⟩, Q.ofN 1, "5 mg/kg every 8h", "40 mg/kg/day"⟩,
        ⟨Q.ofN 1, Q.ofN 12, "10 mg/kg every 6–8h", "40 mg/kg/day"⟩,
        ⟨Q.ofN 12, Q.ofN 200, "200–400 mg every 6h", "1200 mg/day (OTC)"⟩ ]),
    ("amoxicillin",
      [ ⟨Q.ofN 0, Q.ofN 1, "20 mg/kg/day divided 3 doses", "30 mg/kg/day"⟩,
        ⟨Q.ofN 1, Q.ofN 12, "25–50 mg/kg/day in 2–3 doses", "90 mg/kg/day"⟩,
        ⟨Q.ofN 12, Q.ofN 200, "500 mg every 8h", "3 g/day"⟩ ]),
    ("azithromycin",
      [ ⟨Q.ofN 1, Q.ofN 12, "10 mg/kg once daily", "500 mg"⟩,
        ⟨Q.ofN 12, Q.ofN 200, "500 mg day 1, then 250 mg daily", "1.5 g/course"⟩ ]),
    ("aspirin",
      [ ⟨Q.ofN 12, Q.ofN 200, "75–325 mg once daily", "4 g/day"⟩ ]),
    ("metformin",
      [ ⟨Q.ofN 10, Q.ofN 18, "500 mg twice daily", "2 g/day"⟩,
        ⟨Q.ofN 18, Q.ofN 200, "500–1000 mg twice daily", "2.5 g/day"⟩ ]),
    ("omeprazole",
      [ ⟨Q.ofN 1, Q.ofN 12, "0.7–3.5 mg/kg/day", "20 mg/day"⟩,
        ⟨Q.ofN 12, Q.ofN 200, "20–40 mg daily", "40 mg/day"⟩ ]),
    ("prednisone",
      [ ⟨Q.ofN 1, Q.ofN 12, "0.5–2 mg/kg/day", "60 mg/day"⟩,
        ⟨Q.ofN 12, Q.ofN 200, "5–60 mg daily", "80 mg/day"⟩ ]),
    ("ciprofloxacin",
      [ ⟨Q.ofN 1, Q.ofN 12, "10 mg/kg every 12h", "500 mg/dose"⟩,
        ⟨Q.ofN 12, Q.ofN 200, "500–750 mg every 12h", "1500 mg/day"⟩ ]),
    ("levothyroxine",
      [ ⟨Q.ofN 0, Q.ofN 1, "10–15 mcg/kg/day", "50 mcg/day"⟩,
        ⟨Q.ofN 1, Q.ofN 12, "4–6 mcg/kg/day", "100 mcg/day"⟩,
        ⟨Q.ofN 12, Q.ofN 200, "50–200 mcg/day", "200 mcg/day"⟩ ]),
    ("atorvastatin",
      [ ⟨Q.ofN 10, Q.ofN 18, "10–20 mg daily", "20 mg/day"⟩,
        ⟨Q.ofN 18, Q.ofN 200, "10–80 mg daily", "80 mg/day"⟩ ]),
    ("lisinopril",
      [ ⟨Q.ofN 6, Q.ofN 16, "0.07 mg/kg once daily", "5 mg/day"⟩,
        ⟨Q.ofN 16, Q.ofN 200, "5–40 mg once daily", "40 mg/day"⟩ ]) ]

/-- Result of `recommend_dose`: the two error dictionaries of the Python
code (carrying the data interpolated into their messages) or the assembled
recommendation dictionary. -/
inductive DoseResult where
  | errUnknownDrug (drug_name : String)
  | errNoRuleForAge (drug_name : String) (age_years : Q)
  | ok (drug : String) (age_years : Q) (weight_kg : Q) (dosage : String) (max_per_day : String)
deriving DecidableEq

/-- Whether a `DoseResult` is one of the two error dictionaries. -/
def DoseResult.isErr : DoseResult → Bool
  | .ok _ _ _ _ _ => false
  | _ => true

/-- The `weight_kg` field of a successful recommendation. -/
def DoseResult.weightOf : DoseResult → Option Q
  | .ok _ _ w _ _ => some w
  | _ => none

/-- The age-band predicate `r["age_min"] <= age_years < r["age_max"]`. -/
def bandMatches (age_years : Q) (r : DoseRule) : Bool :=
  Q.ble r.age_min age_years && Q.blt age_years r.age_max

/-- `gen.py`, `recommend_dose(drug_name, age_years, weight_kg=None)`.
A total function: every branch of the Python code returns a dictionary and
none raises. -/
def recommend_dose (drug_name : String) (age_years : Q)
    (weight_kg : Option Q) : DoseResult :=
  let key := strLower drug_name
  let rules := (medications.lookup key).getD []
  if rules.isEmpty then DoseResult.errUnknownDrug drug_name
  else
    match rules.find? (bandMatches age_years) with
    | none => DoseResult.errNoRuleForAge drug_name age_years
    | some rule =>
      let w :=
        match weight_kg with
        | none => estimate_weight_by_age age_years
        | some w => w
      DoseResult.ok drug_name age_years w
        (calculate_dose rule.dose w age_years)
        (adjust_max_for_age_weight rule.max age_years w)

/-- One row of the local interaction table. -/
structure InteractionRecord where
  drug_a : String
  drug_b : String
  severity : Option String
  description : Option String
  source : Option String
deriving DecidableEq

/-- One reported pairwise interaction. -/
structure MatchedPair where
  drug_a : String
  drug_b : String
  matched_a : String
  matched_b : String
  severity : Option String
  description : Option String
  source : String
deriving DecidableEq

/-- `itertools.combinations(l, 2)`: all position pairs `i < j` in order. -/
def combinations2 {α : Type} : List α → List (α × α)
  | [] => []
  | x :: xs => xs.map (fun y => (x, y)) ++ combinations2 xs

/-- The vocabulary of the local table: every `drug_a`/`drug_b` value,
lowercased, deduplicated, empty strings removed (Python builds a hash set,
whose iteration order the abstract scorer parameter absorbs). -/
def ddiVocab (local_records : List InteractionRecord) : List String :=
  ((local_records.flatMap (fun r => [strLower r.drug_a, strLower r.drug_b])).dedup).filter
    (fun d => !(d == ""))

/-- The fuzzy-resolution stage of `find_ddi_local`: query the scorer with
the lowercased name and keep the best match only at or above the threshold.
The scorer (`process.extractOne` with `fuzz.token_sort_ratio` in the
source) is an external library dependency and is a parameter here. -/
def fuzzyResolve (eo : String → List String → Option (String × Q))
    (fuzz_threshold : Q) (dbList : List String) (d : String) : Option String :=
  match eo (strLower d) dbList with
  | some (m, score) => if Q.ble fuzz_threshold score then some m else none
  | none => none

/-- Symmetric record match: the record equals the resolved pair in either
column order (lowercased columns). -/
def ddiRecMatches (ma mb : String) (rec : InteractionRecord) : Prop :=
  (strLower rec.drug_a = ma ∧ strLower rec.drug_b = mb) ∨
  (strLower rec.drug_a = mb ∧ strLower rec.drug_b = ma)

instance (ma mb : String) (rec : InteractionRecord) :
    Decidable (ddiRecMatches ma mb rec) := by
  unfold ddiRecMatches; infer_instance

/-- The `MatchedPair` dictionary appended by `find_ddi_local`. -/
def mkMatchedPair (a b ma mb : String) (rec : InteractionRecord) : MatchedPair :=
  ⟨a, b, ma, mb, rec.severity, rec.description, rec.source.getD "local"⟩

/-- `gen.py`, `find_ddi_local(drug_names, local_records, fuzz_threshold=85)`,
with the external fuzzy scorer as parameter `eo`.  A pair is skipped when
either side resolved to `None` or to the empty string (Python's falsy
check `if not ma or not mb`). -/
def find_ddi_local (eo : String → List String → Option (String × Q))
    (drug_names : List String) (local_records : List InteractionRecord)
    (fuzz_threshold : Q) : List MatchedPair :=
  let dbList := ddiVocab local_records
  (combinations2 drug_names).flatMap (fun p =>
    match fuzzyResolve eo fuzz_threshold dbList p.1,
          fuzzyResolve eo fuzz_threshold dbList p.2 with
    | some ma, some mb =>
      if ma = "" ∨ mb = "" then []
      else local_records.filterMap (fun rec =>
        if ddiRecMatches ma mb rec then some (mkMatchedPair p.1 p.2 ma mb rec)
        else none)
    | _, _ => [])

/-- A concrete stand-in scorer used to instantiate the external fuzzy
matcher in witnesses: exact matches score 100, everything else fails. -/
def exactScoreOne (q : String) (cands : List String) : Option (String × Q) :=
  match cands.find? (fun c => c == q) with
  | some c => some (c, Q.ofN 100)
  | none => none

/-- A one-row interaction table used to instantiate witnesses. -/
def sampleRecs : List InteractionRecord :=
  [⟨"Warfarin", "Aspirin", some "High", some "Bleeding risk", some "local"⟩]

/-- `needle` occurs as a contiguous substring of `hay`. -/
def hasSub (hay needle : List Char) : Prop :=
  ∃ pre post, hay = pre ++ needle ++ post

/-- The scaled per-kilogram dose string prescribed by the spec: both bounds
multiplied by the weight, one decimal place each, a single value exactly
when the two scaled values coincide, unit appended. -/
def perKgScaled (low : Q) (hiOpt : Option Q) (u : String) (w : Q) : String :=
  let high := hiOpt.getD low
  if Q.beq (Q.mul low w) (Q.mul high w) then formatF1 (Q.mul low w) ++ " " ++ u
  else formatF1 (Q.mul low w) ++ "–" ++ formatF1 (Q.mul high w) ++ " " ++ u

/-- The fixed-dose bound chosen by the spec for the absolute pattern: the
low bound at age 65 and above, otherwise the integer floor of the average. -/
def absChosen (low : Nat) (hiOpt : Option Nat) (age : Q) : Nat :=
  if Q.ble (Q.ofN 65) age then low else (low + hiOpt.getD low) / 2

/-- The adjusted-maximum string prescribed by the spec for an extracted
value-unit pair: grams converted to milligrams, the highest applicable age
band (≥80 → ×0.6, else ≥65 → ×0.75), a further ×0.75 below 50 kg, grams
per day with one decimal place when the original unit was grams or the
milligram value reaches 1000, and the unconditional `(adjusted)` suffix. -/
def adjustFormatted (v : Q) (u : String) (age weight : Q) : String :=
  let mgValue := if u = "g" then Q.mul v (Q.ofN 1000) else v
  let mgUnit := if u = "g" then "mg" else u
  let v1 :=
    if Q.ble (Q.ofN 80) age then Q.mul mgValue ⟨6, 10⟩
    else if Q.ble (Q.ofN 65) age then Q.mul mgValue ⟨75, 100⟩
    else mgValue
  let v2 := if Q.blt weight (Q.ofN 50) then Q.mul v1 ⟨75, 100⟩ else v1
  if u = "g" ∨ (mgUnit = "mg" ∧ Q.ble (Q.ofN 1000) v2) then
    formatF1 (Q.divN v2 1000) ++ " g/day (adjusted)"
  else
    formatF0 v2 ++ " " ++ mgUnit ++ "/day (adjusted)"

/-! ### Structural lemmas about the matchers -/

theorem subIndex_cons (needle : List Char) (c : Char) (rest : List Char) :
    subIndex needle (c :: rest) =
      if startsWithChars needle (c :: rest) then some 0
      else (subIndex needle rest).map (· + 1) := rfl

theorem startsWithChars_sound : ∀ (ps cs : List Char),
    startsWithChars ps cs = true → cs = ps ++ cs.drop ps.length := by
  intro ps
  induction ps with
  | nil => intro cs _; simp
  | cons p ps ih =>
    intro cs h
    cases cs with
    | nil => simp [startsWithChars] at h
    | cons c cs =>
      simp only [startsWithChars, Bool.and_eq_true, beq_iff_eq] at h
      obtain ⟨rfl, h2⟩ := h
      simpa using ih cs h2

theorem startsWithChars_append (ps t : List Char) :
    startsWithChars ps (ps ++ t) = true := by
  induction ps with
  | nil => simp [startsWithChars]
  | cons p ps ih => simp [startsWithChars, ih]

theorem stripPre_sound (p : String) (cs r : List Char)
    (h : stripPre p cs = some r) : cs = p.data ++ r := by
  unfold stripPre at h
  split at h
  · next hp =>
    simp only [Option.some.injEq] at h
    have hdata := startsWithChars_sound p.data cs hp
    have hl : p.length = p.data.length := rfl
    rw [hl] at h
    rw [← h]
    exact hdata
  · exact absurd h (by simp)

theorem subIndex_of_hasSub (hay needle : List Char) (h : hasSub hay needle) :
    ∃ i, subIndex needle hay = some i := by
  obtain ⟨pre, post, rfl⟩ := h
  induction pre with
  | nil =>
    simp only [List.nil_append]
    cases needle with
    | nil =>
      cases post with
      | nil => exact ⟨0, by simp [subIndex]⟩
      | cons c cs => exact ⟨0, by simp [subIndex_cons, startsWithChars]⟩
    | cons n ns =>
      refine ⟨0, ?_⟩
      rw [List.cons_append, subIndex_cons, ← List.cons_append,
        if_pos (startsWithChars_append (n :: ns) post)]
  | cons c pre ih =>
    obtain ⟨i, hi⟩ := ih
    rw [List.cons_append, List.cons_append]
    by_cases hs : startsWithChars needle (c :: (pre ++ needle ++ post)) = true
    · exact ⟨0, by rw [subIndex_cons, if_pos hs]⟩
    · refine ⟨i + 1, ?_⟩
      rw [subIndex_cons, if_neg hs, hi]
      rfl

theorem matchDecimal_suffix (cs : List Char) (v : Q) (r : List Char)
    (h : matchDecimal cs = some (v, r)) : ∃ pre, cs = pre ++ r := by
  unfold matchDecimal at h
  split at h
  · exact absurd h (by simp)
  · split at h
    · next r2 heq =>
      split at h
      · simp only [Option.some.injEq, Prod.mk.injEq] at h
        refine ⟨cs.takeWhile Char.isDigit, ?_⟩
        rw [← h.2, List.takeWhile_append_dropWhile]
      · simp only [Option.some.injEq, Prod.mk.injEq] at h
        refine ⟨cs.takeWhile Char.isDigit ++ '.' :: r2.takeWhile Char.isDigit, ?_⟩
        rw [← h.2]
        conv_lhs => rw [← List.takeWhile_append_dropWhile (p := Char.isDigit) (l := cs)]
        rw [heq]
        simp [List.takeWhile_append_dropWhile]
    · simp only [Option.some.injEq, Prod.mk.injEq] at h
      refine ⟨cs.takeWhile Char.isDigit, ?_⟩
      rw [← h.2, List.takeWhile_append_dropWhile]

theorem matchInt_suffix (cs : List Char) (v : Nat) (r : List Char)
    (h : matchInt cs = some (v, r)) : ∃ pre, cs = pre ++ r := by
  unfold matchInt at h
  split at h
  · exact absurd h (by simp)
  · simp only [Option.some.injEq, Prod.mk.injEq] at h
    refine ⟨cs.takeWhile Char.isDigit, ?_⟩
    rw [← h.2, List.takeWhile_append_dropWhile]

theorem dropWhileChars_suffix (p : Char → Bool) (l : List Char) :
    ∃ pre, l = pre ++ l.dropWhile p :=
  ⟨l.takeWhile p, (List.takeWhile_append_dropWhile p l).symm⟩

theorem matchUnit_sound (cs : List Char) (u : String) (r : List Char)
    (h : matchUnit cs = some (u, r)) : cs = u.data ++ r := by
  unfold matchUnit at h
  cases h1 : stripPre "mg" cs with
  | some r1 =>
    rw [h1] at h
    simp only [Option.some.injEq, Prod.mk.injEq] at h
    rw [← h.1, ← h.2]
    exact stripPre_sound _ _ _ h1
  | none =>
    rw [h1] at h
    cases h2 : stripPre "mcg" cs with
    | some r2 =>
      rw [h2] at h
      simp only [Option.some.injEq, Prod.mk.injEq] at h
      rw [← h.1, ← h.2]
      exact stripPre_sound _ _ _ h2
    | none =>
      rw [h2] at h
      cases h3 : stripPre "g" cs with
      | some r3 =>
        rw [h3] at h
        simp only [Option.some.injEq, Prod.mk.injEq] at h
        rw [← h.1, ← h.2]
        exact stripPre_sound _ _ _ h3
      | none => rw [h3] at h; exact absurd h (by simp)

theorem rangeStepQ_suffix (r1 : List Char) (hi : Option Q) (r3 : List Char)
    (h : rangeStepQ r1 = some (hi, r3)) : ∃ pre, r1 = pre ++ r3 := by
  unfold rangeStepQ at h
  split at h
  · next r2 =>
    cases h2 : matchDecimal r2 with
    | none => rw [h2] at h; exact absurd h (by simp)
    | some vr =>
      obtain ⟨v, r⟩ := vr
      rw [h2] at h
      simp only [Option.some.injEq, Prod.mk.injEq] at h
      obtain ⟨pre, hpre⟩ := matchDecimal_suffix r2 v r h2
      exact ⟨'–' :: pre, by rw [hpre, ← h.2]; simp⟩
  · simp only [Option.some.injEq, Prod.mk.injEq] at h
    exact ⟨[], by rw [← h.2]; rfl⟩

theorem rangeStepN_suffix (r1 : List Char) (hi : Option Nat) (r3 : List Char)
    (h : rangeStepN r1 = some (hi, r3)) : ∃ pre, r1 = pre ++ r3 := by
  unfold rangeStepN at h
  split at h
  · next r2 =>
    cases h2 : matchInt r2 with
    | none => rw [h2] at h; exact absurd h (by simp)
    | some vr =>
      obtain ⟨v, r⟩ := vr
      rw [h2] at h
      simp only [Option.some.injEq, Prod.mk.injEq] at h
      obtain ⟨pre, hpre⟩ := matchInt_suffix r2 v r h2
      exact ⟨'–' :: pre, by rw [hpre, ← h.2]; simp⟩
  · simp only [Option.some.injEq, Prod.mk.injEq] at h
    exact ⟨[], by rw [← h.2]; rfl⟩

theorem matchPerKgAt_hasSub (cs : List Char) (low : Q) (hi : Option Q) (u : String)
    (h : matchPerKgAt cs = some (low, hi, u)) : hasSub cs (u ++ "/kg").data := by
  unfold matchPerKgAt at h
  cases h1 : matchDecimal cs with
  | none => rw [h1] at h; simp at h
  | some lr =>
    obtain ⟨low1, r1⟩ := lr
    rw [h1] at h
    simp only [Option.pure_def, Option.bind_eq_bind, Option.some_bind] at h
    cases h2 : rangeStepQ r1 with
    | none => rw [h2] at h; simp at h
    | some hr =>
      obtain ⟨hi1, r3⟩ := hr
      rw [h2] at h
      simp only [Option.pure_def, Option.bind_eq_bind, Option.some_bind] at h
      cases h3 : matchUnit (r3.dropWhile isWsChar) with
      | none => rw [h3] at h; simp at h
      | some ur =>
        obtain ⟨u1, r5⟩ := ur
        rw [h3] at h
        simp only [Option.pure_def, Option.bind_eq_bind, Option.some_bind] at h
        cases h4 : stripPre "/kg" r5 with
        | none => rw [h4] at h; simp at h
        | some r6 =>
          rw [h4] at h
          simp only [Option.some.injEq, Prod.mk.injEq] at h
          obtain ⟨-, -, rfl⟩ := h
          obtain ⟨p1, hp1⟩ := matchDecimal_suffix cs low1 r1 h1
          obtain ⟨p2, hp2⟩ := rangeStepQ_suffix r1 hi1 r3 h2
          obtain ⟨p3, hp3⟩ := dropWhileChars_suffix isWsChar r3
          have h5 := matchUnit_sound _ _ _ h3
          have h6 := stripPre_sound _ _ _ h4
          refine ⟨p1 ++ p2 ++ p3, r6, ?_⟩
          rw [hp1, hp2, hp3, h5, h6]
          simp [String.data_append]

theorem matchAbsAt_hasSub (cs : List Char) (low : Nat) (hi : Option Nat) (u : String)
    (h : matchAbsAt cs = some (low, hi, u)) : hasSub cs u.data := by
  unfold matchAbsAt at h
  cases h1 : matchInt cs with
  | none => rw [h1] at h; simp at h
  | some lr =>
    obtain ⟨low1, r1⟩ := lr
    rw [h1] at h
    simp only [Option.pure_def, Option.bind_eq_bind, Option.some_bind] at h
    cases h2 : rangeStepN r1 with
    | none => rw [h2] at h; simp at h
    | some hr =>
      obtain ⟨hi1, r3⟩ := hr
      rw [h2] at h
      simp only [Option.pure_def, Option.bind_eq_bind, Option.some_bind] at h
      cases h3 : matchUnit (r3.dropWhile isWsChar) with
      | none => rw [h3] at h; simp at h
      | some ur =>
        obtain ⟨u1, r5⟩ := ur
        rw [h3] at h
        simp only [Option.pure_def, Option.bind_eq_bind, Option.some_bind,
          Option.some.injEq, Prod.mk.injEq] at h
        obtain ⟨-, -, rfl⟩ := h
        obtain ⟨p1, hp1⟩ := matchInt_suffix cs low1 r1 h1
        obtain ⟨p2, hp2⟩ := rangeStepN_suffix r1 hi1 r3 h2
        obtain ⟨p3, hp3⟩ := dropWhileChars_suffix isWsChar r3
        have h5 := matchUnit_sound _ _ _ h3
        refine ⟨p1 ++ p2 ++ p3, r5, ?_⟩
        rw [hp1, hp2, hp3, h5]
        simp

theorem searchWith_sound {α : Type} (m : List Char → Option α) :
    ∀ (cs : List Char) (x : α), searchWith m cs = some x →
      ∃ pre t, cs = pre ++ t ∧ m t = some x := by
  intro cs
  induction cs with
  | nil => intro x h; exact ⟨[], [], rfl, h⟩
  | cons c rest ih =>
    intro x h
    rw [searchWith] at h
    cases h1 : m (c :: rest) with
    | some r =>
      rw [h1] at h
      simp only [] at h
      exact ⟨[], c :: rest, rfl, by rw [h1]; exact h⟩
    | none =>
      rw [h1] at h
      obtain ⟨pre, t, hct, hmt⟩ := ih x h
      exact ⟨c :: pre, t, by rw [hct]; rfl, hmt⟩

theorem hasSub_of_append (pre t needle : List Char) (h : hasSub t needle) :
    hasSub (pre ++ t) needle := by
  obtain ⟨p, q, rfl⟩ := h
  exact ⟨pre ++ p, q, by simp⟩

theorem filterMap_if_eq {α β : Type} (l : List α) (p : α → Prop) [DecidablePred p]
    (g : α → β) :
    l.filterMap (fun x => if p x then some (g x) else none) =
      (l.filter (fun x => decide (p x))).map g := by
  induction l with
  | nil => rfl
  | cons x l ih =>
    by_cases hx : p x
    · simp [List.filterMap_cons, List.filter_cons, hx, ih]
    · simp [List.filterMap_cons, List.filter_cons, hx, ih]

/-! ### Claim theorems -/

/-- C3: for every `max_text` in which the number-and-unit pattern matches
(the code takes the leftmost such occurrence), `adjust_max_for_age_weight`
converts grams to milligrams (×1000), applies only the highest applicable
age band (≥80 → ×0.6, else ≥65 → ×0.75), stacks a further ×0.75 when the
weight is below 50, formats as grams per day with one decimal place when
the original unit was grams or the milligram value is ≥ 1000 and otherwise
as the rounded value with its unit per day, and always appends
`(adjusted)`; in particular `adjust_max_for_age_weight "4 g/day" 85 40 =
"1.8 g/day (adjusted)"`. -/
theorem claim_c3_adjust_max :
    (∀ (s : String) (v : Q) (u : String) (rest : List Char) (age w : Q),
      searchWith matchNumUnitAt s.data = some (v, u, rest) →
      adjust_max_for_age_weight s age w = adjustFormatted v u age w) ∧
    adjust_max_for_age_weight "4 g/day" (Q.ofN 85) (Q.ofN 40) =
      "1.8 g/day (adjusted)" := by
  constructor
  · intro s v u rest age w h
    simp only [adjust_max_for_age_weight, adjustFormatted, h]
    by_cases hu : u = "g" <;> simp [hu]
  · decide

/-- Witness for C3 at the claim's own example `"4 g/day"`, age 85,
weight 40. -/
theorem claim_c3_witness :
    searchWith matchNumUnitAt "4 g/day".data = some (Q.ofN 4, "g", "/day".data) ∧
    adjust_max_for_age_weight "4 g/day" (Q.ofN 85) (Q.ofN 40) =
      adjustFormatted (Q.ofN 4) "g" (Q.ofN 85) (Q.ofN 40) :=
  ⟨by decide,
   claim_c3_adjust_max.1 "4 g/day" (Q.ofN 4) "g" "/day".data (Q.ofN 85) (Q.ofN 40)
     (by decide)⟩

/-- C8: when neither dose pattern matches, `calculate_dose` returns the
dose text unchanged, and when the number-and-unit pattern does not match,
`adjust_max_for_age_weight` returns the max text unchanged (fail-open). -/
theorem claim_c8_fail_open :
    (∀ (s : String) (w a : Q), searchWith matchPerKgAt s.data = none →
      searchWith matchAbsAt s.data = none → calculate_dose s w a = s) ∧
    (∀ (s : String) (age w : Q), searchWith matchNumUnitAt s.data = none →
      adjust_max_for_age_weight s age w = s) := by
  constructor
  · intro s w a h1 h2
    simp only [calculate_dose, h1, h2]
  · intro s age w h
    simp only [adjust_max_for_age_weight, h]

/-- Witness for C8 on the unparseable text `"take as directed"`. -/
theorem claim_c8_witness :
    (searchWith matchPerKgAt "take as directed".data = none ∧
     searchWith matchAbsAt "take as directed".data = none ∧
     searchWith matchNumUnitAt "take as directed".data = none) ∧
    calculate_dose "take as directed" (Q.ofN 70) (Q.ofN 30) = "take as directed" ∧
    adjust_max_for_age_weight "take as directed" (Q.ofN 30) (Q.ofN 70) =
      "take as directed" :=
  ⟨⟨by decide, by decide, by decide⟩,
   claim_c8_fail_open.1 "take as directed" (Q.ofN 70) (Q.ofN 30) (by decide) (by decide),
   claim_c8_fail_open.2 "take as directed" (Q.ofN 30) (Q.ofN 70) (by decide)⟩

/-- C9: the weight estimator is a total function of age alone with the five
bands `<0.1 → 4.0`, `[0.1,1) → 8.0`, `[1,5) → 15.0`, `[5,12) → 35.0`,
`≥12 → 70.0`, and the claim's five sample points (0.05, 0.5, 3, 8, 40)
evaluate accordingly. -/
theorem claim_c9_weight_estimator :
    (∀ a : Q,
      (Q.blt a ⟨1, 10⟩ = true → estimate_weight_by_age a = Q.ofN 4) ∧
      (Q.ble ⟨1, 10⟩ a = true → Q.blt a (Q.ofN 1) = true →
        estimate_weight_by_age a = Q.ofN 8) ∧
      (Q.ble (Q.ofN 1) a = true → Q.blt a (Q.ofN 5) = true →
        estimate_weight_by_age a = Q.ofN 15) ∧
      (Q.ble (Q.ofN 5) a = true → Q.blt a (Q.ofN 12) = true →
        estimate_weight_by_age a = Q.ofN 35) ∧
      (Q.ble (Q.ofN 12) a = true → estimate_weight_by_age a = Q.ofN 70)) ∧
    estimate_weight_by_age ⟨5, 100⟩ = Q.ofN 4 ∧
    estimate_weight_by_age ⟨5, 10⟩ = Q.ofN 8 ∧
    estimate_weight_by_age (Q.ofN 3) = Q.ofN 15 ∧
    estimate_weight_by_age (Q.ofN 8) = Q.ofN 35 ∧
    estimate_weight_by_age (Q.ofN 40) = Q.ofN 70 := by
  refine ⟨?_, by decide, by decide, by decide, by decide, by decide⟩
  intro a
  refine ⟨?_, ?_, ?_, ?_, ?_⟩ <;>
    · intros
      unfold estimate_weight_by_age
      split_ifs <;>
        first
          | rfl
          | (exfalso
             simp only [Q.blt, Q.ble, Q.ofN, decide_eq_true_eq, Bool.not_eq_true,
               decide_eq_false_iff_not] at *
             omega)

/-- Witness for C9 instantiating the `[1,5)` band at age 3. -/
theorem claim_c9_witness :
    Q.ble (Q.ofN 1) (Q.ofN 3) = true ∧ Q.blt (Q.ofN 3) (Q.ofN 5) = true ∧
    estimate_weight_by_age (Q.ofN 3) = Q.ofN 15 :=
  ⟨by decide, by decide,
   (claim_c9_weight_estimator.1 (Q.ofN 3)).2.2.1 (by decide) (by decide)⟩

/-- C10: `adjust_max_for_age_weight` ignores a `/kg` qualifier that follows
the first number-and-unit occurrence, treating the value as an absolute
per-day maximum; in particular
`adjust_max_for_age_weight "40 mg/kg/day" 30 70 = "40 mg/day (adjusted)"`,
and the shipped table does carry such per-kilogram maxima (paracetamol). -/
theorem claim_c10_per_kg_max_dropped :
    (∀ (s : String) (v : Q) (u : String) (rest : List Char) (age w : Q),
      searchWith matchNumUnitAt s.data = some (v, u, rest) →
      startsWithChars "/kg".data rest = true →
      adjust_max_for_age_weight s age w = adjustFormatted v u age w) ∧
    adjust_max_for_age_weight "40 mg/kg/day" (Q.ofN 30) (Q.ofN 70) =
      "40 mg/day (adjusted)" ∧
    ((medications.lookup "paracetamol").getD []).map (fun r => r.max) =
      ["40 mg/kg/day", "60 mg/kg/day", "4 g/day"] := by
  refine ⟨?_, by decide, by decide⟩
  intro s v u rest age w h _
  simp only [adjust_max_for_age_weight, adjustFormatted, h]
  by_cases hu : u = "g" <;> simp [hu]

/-- Witness for C10 at `"40 mg/kg/day"`, where the extracted rest does
start with `/kg`. -/
theorem claim_c10_witness :
    (searchWith matchNumUnitAt "40 mg/kg/day".data =
       some (Q.ofN 40, "mg", "/kg/day".data) ∧
     startsWithChars "/kg".data "/kg/day".data = true) ∧
    adjust_max_for_age_weight "40 mg/kg/day" (Q.ofN 30) (Q.ofN 70) =
      adjustFormatted (Q.ofN 40) "mg" (Q.ofN 30) (Q.ofN 70) :=
  ⟨⟨by decide, by decide⟩,
   claim_c10_per_kg_max_dropped.1 "40 mg/kg/day" (Q.ofN 40) "mg" "/kg/day".data
     (Q.ofN 30) (Q.ofN 70) (by decide) (by decide)⟩

/-- Counterexample to C1 as stated: with two `/kg` tokens and weight 0 the
code emits a single scaled value (the scaled bounds coincide even though
`low ≠ high`) and slices the suffix after the FIRST occurrence of
`"mg/kg"`, not after the matched token, so the claimed output
`"0.0–0.0 mg daily"` is not produced. -/
theorem claim_c1_counterexample :
    calculate_dose "mg/kg note: 10–20 mg/kg daily" (Q.ofN 0) (Q.ofN 5) =
      "0.0 mg note: 10–20 mg/kg daily" ∧
    calculate_dose "mg/kg note: 10–20 mg/kg daily" (Q.ofN 0) (Q.ofN 5) ≠
      "0.0–0.0 mg daily" :=
  ⟨by decide, by decide⟩

/-- C1 (amended): for every dose text matched by the per-kilogram pattern,
`calculate_dose` multiplies the low and (if present) high bound by the
weight, formats a single value with one decimal place and the unit when the
two SCALED values coincide and `low–high` otherwise, and appends verbatim
the text of `dose_text` that follows the FIRST occurrence of the substring
`unit + "/kg"`; in particular
`calculate_dose "10 mg/kg every 6h" 20 5 = "200.0 mg every 6h"`. -/
theorem claim_c1_per_kg_dose :
    (∀ (s : String) (w a low : Q) (hiOpt : Option Q) (u : String),
      searchWith matchPerKgAt s.data = some (low, hiOpt, u) →
      calculate_dose s w a =
        perKgScaled low hiOpt u w ++ textAfterFirst s (u ++ "/kg")) ∧
    calculate_dose "10 mg/kg every 6h" (Q.ofN 20) (Q.ofN 5) =
      "200.0 mg every 6h" := by
  constructor
  · intro s w a low hiOpt u h
    obtain ⟨pre, t, hst, hmt⟩ := searchWith_sound matchPerKgAt s.data (low, hiOpt, u) h
    have hsub : hasSub s.data (u ++ "/kg").data := by
      rw [hst]
      exact hasSub_of_append pre t _ (matchPerKgAt_hasSub t low hiOpt u hmt)
    obtain ⟨i, hi⟩ := subIndex_of_hasSub s.data (u ++ "/kg").data hsub
    have h3 : ("/kg" : String).length = 3 := rfl
    have hlen : (u ++ "/kg").length = u.length + 3 := by
      rw [String.length_append, h3]
    simp only [calculate_dose, perKgScaled, textAfterFirst, h, hi, hlen]
    simp [Nat.add_assoc]
  · decide

/-- Witness for C1 (amended) at the claim's own example. -/
theorem claim_c1_witness :
    searchWith matchPerKgAt "10 mg/kg every 6h".data =
      some (Q.ofN 10, none, "mg") ∧
    calculate_dose "10 mg/kg every 6h" (Q.ofN 20) (Q.ofN 5) =
      perKgScaled (Q.ofN 10) none "mg" (Q.ofN 20) ++
        textAfterFirst "10 mg/kg every 6h" ("mg" ++ "/kg") :=
  ⟨by decide,
   claim_c1_per_kg_dose.1 "10 mg/kg every 6h" (Q.ofN 20) (Q.ofN 5) (Q.ofN 10)
     none "mg" (by decide)⟩

/-- Counterexample to C2 as stated: when the matched unit also occurs
earlier in the text, the code slices the suffix after the FIRST occurrence
of `"mg"`, not after the matched token, so the claimed output
`"500 mg daily"` is not produced. -/
theorem claim_c2_counterexample :
    calculate_dose "mg: 500 mg daily" (Q.ofN 70) (Q.ofN 30) =
      "500 mg: 500 mg daily" ∧
    calculate_dose "mg: 500 mg daily" (Q.ofN 70) (Q.ofN 30) ≠ "500 mg daily" :=
  ⟨by decide, by decide⟩

/-- C2 (amended): for every dose text that misses the per-kilogram pattern
but is matched by the absolute pattern, `calculate_dose` chooses the low
bound at age 65 and above and otherwise the integer floor of the average,
and returns the chosen integer, a space, the unit, and the text of
`dose_text` that follows the FIRST occurrence of the unit substring; in
particular `calculate_dose "500–1000 mg every 6h" 70 70 = "500 mg every 6h"`
and with age 30 `"750 mg every 6h"`. -/
theorem claim_c2_absolute_dose :
    (∀ (s : String) (w a : Q) (low : Nat) (hiOpt : Option Nat) (u : String),
      searchWith matchPerKgAt s.data = none →
      searchWith matchAbsAt s.data = some (low, hiOpt, u) →
      calculate_dose s w a =
        toString (absChosen low hiOpt a) ++ " " ++ u ++ textAfterFirst s u) ∧
    calculate_dose "500–1000 mg every 6h" (Q.ofN 70) (Q.ofN 70) =
      "500 mg every 6h" ∧
    calculate_dose "500–1000 mg every 6h" (Q.ofN 70) (Q.ofN 30) =
      "750 mg every 6h" := by
  refine ⟨?_, by decide, by decide⟩
  intro s w a low hiOpt u h1 h2
  obtain ⟨pre, t, hst, hmt⟩ := searchWith_sound matchAbsAt s.data (low, hiOpt, u) h2
  have hsub : hasSub s.data u.data := by
    rw [hst]
    exact hasSub_of_append pre t _ (matchAbsAt_hasSub t low hiOpt u hmt)
  obtain ⟨i, hi⟩ := subIndex_of_hasSub s.data u.data hsub
  simp only [calculate_dose, absChosen, textAfterFirst, h1, h2, hi]

/-- Witness for C2 (amended) at the claim's own example. -/
theorem claim_c2_witness :
    (searchWith matchPerKgAt "500–1000 mg every 6h".data = none ∧
     searchWith matchAbsAt "500–1000 mg every 6h".data =
       some (500, some 1000, "mg")) ∧
    calculate_dose "500–1000 mg every 6h" (Q.ofN 70) (Q.ofN 70) =
      toString (absChosen 500 (some 1000) (Q.ofN 70)) ++ " " ++ "mg" ++
        textAfterFirst "500–1000 mg every 6h" "mg" :=
  ⟨⟨by decide, by decide⟩,
   claim_c2_absolute_dose.1 "500–1000 mg every 6h" (Q.ofN 70) (Q.ofN 70) 500
     (some 1000) "mg" (by decide) (by decide)⟩

/-- Counterexample to C4 as stated: a supplied non-positive weight is NOT
replaced by the estimator — `recommend_dose("paracetamol", 30, 0)` keeps
weight 0 while the estimator would give 70 (the Python code only replaces
`None`: `if weight_kg is None`). -/
theorem claim_c4_counterexample :
    (recommend_dose "paracetamol" (Q.ofN 30) (some (Q.ofN 0))).weightOf =
      some (Q.ofN 0) ∧
    estimate_weight_by_age (Q.ofN 30) = Q.ofN 70 ∧
    Q.beq (Q.ofN 0) (Q.ofN 70) = false :=
  ⟨by decide, by decide, by decide⟩

/-- C4 (amended): for every drug in the table and every age inside one of
its bands, the returned `weight_kg` equals the Weight Estimator's output
exactly when the supplied weight is absent (`None`); any supplied numeric
weight, including zero or negative values, is returned unchanged. -/
theorem claim_c4_weight_resolution :
    ∀ (name : String) (age : Q) (rules : List DoseRule) (rule : DoseRule),
      medications.lookup (strLower name) = some rules →
      rules.find? (bandMatches age) = some rule →
      (recommend_dose name age none).weightOf =
        some (estimate_weight_by_age age) ∧
      ∀ w : Q, (recommend_dose name age (some w)).weightOf = some w := by
  intro name age rules rule hl hf
  have hne : rules.isEmpty = false := by
    cases rules with
    | nil => simp at hf
    | cons r rs => rfl
  refine ⟨?_, fun w => ?_⟩ <;>
    simp [recommend_dose, hl, hne, hf, DoseResult.weightOf]

/-- Witness for C4 (amended): paracetamol at age 30 (band `[12, 200)`),
with no supplied weight and with supplied weight 55. -/
theorem claim_c4_witness :
    (medications.lookup (strLower "paracetamol") =
      some [ ⟨Q.ofN 0, Q.ofN 1, "10 mg/kg every 6h", "40 mg/kg/day"⟩,
             ⟨Q.ofN 1, Q.ofN 12, "15 mg/kg every 6h", "60 mg/kg/day"⟩,
             ⟨Q.ofN 12, Q.ofN 200, "500–1000 mg every 6h", "4 g/day"⟩ ] ∧
     List.find? (bandMatches (Q.ofN 30))
       [ ⟨Q.ofN 0, Q.ofN 1, "10 mg/kg every 6h", "40 mg/kg/day"⟩,
         ⟨Q.ofN 1, Q.ofN 12, "15 mg/kg every 6h", "60 mg/kg/day"⟩,
         ⟨Q.ofN 12, Q.ofN 200, "500–1000 mg every 6h", "4 g/day"⟩ ] =
       some ⟨Q.ofN 12, Q.ofN 200, "500–1000 mg every 6h", "4 g/day"⟩) ∧
    (recommend_dose "paracetamol" (Q.ofN 30) none).weightOf =
      some (estimate_weight_by_age (Q.ofN 30)) ∧
    (recommend_dose "paracetamol" (Q.ofN 30) (some (Q.ofN 55))).weightOf =
      some (Q.ofN 55) :=
  ⟨⟨by decide, by decide⟩,
   (claim_c4_weight_resolution "paracetamol" (Q.ofN 30)
     [ ⟨Q.ofN 0, Q.ofN 1, "10 mg/kg every 6h", "40 mg/kg/day"⟩,
       ⟨Q.ofN 1, Q.ofN 12, "15 mg/kg every 6h", "60 mg/kg/day"⟩,
       ⟨Q.ofN 12, Q.ofN 200, "500–1000 mg every 6h", "4 g/day"⟩ ]
     ⟨Q.ofN 12, Q.ofN 200, "500–1000 mg every 6h", "4 g/day"⟩
     (by decide) (by decide)).1,
   (claim_c4_weight_resolution "paracetamol" (Q.ofN 30)
     [ ⟨Q.ofN 0, Q.ofN 1, "10 mg/kg every 6h", "40 mg/kg/day"⟩,
       ⟨Q.ofN 1, Q.ofN 12, "15 mg/kg every 6h", "60 mg/kg/day"⟩,
       ⟨Q.ofN 12, Q.ofN 200, "500–1000 mg every 6h", "4 g/day"⟩ ]
     ⟨Q.ofN 12, Q.ofN 200, "500–1000 mg every 6h", "4 g/day"⟩
     (by decide) (by decide)).2
     (Q.ofN 55)⟩

/-- C5: `recommend_dose` is a total function (the embedding is a Lean
function, mirroring that every Python branch returns a dictionary and none
raises), and it returns an error result exactly when the lowercased drug
name is not a key of the table or no rule's band contains the age; in
particular `recommend_dose "unknown_drug_xyz" 30` is an error result. -/
theorem claim_c5_error_conditions :
    (∀ (name : String) (age : Q) (w : Option Q),
      (recommend_dose name age w).isErr = true ↔
        (medications.lookup (strLower name) = none ∨
         ((medications.lookup (strLower name)).getD []).find? (bandMatches age) =
           none)) ∧
    (recommend_dose "unknown_drug_xyz" (Q.ofN 30) none).isErr = true := by
  refine ⟨?_, by decide⟩
  intro name age w
  cases hl : medications.lookup (strLower name) with
  | none => simp [recommend_dose, hl, DoseResult.isErr]
  | some rules =>
    cases rules with
    | nil => simp [recommend_dose, hl, DoseResult.isErr]
    | cons r rs =>
      cases hf : (r :: rs).find? (bandMatches age) with
      | none => simp [recommend_dose, hl, hf, DoseResult.isErr]
      | some rule => simp [recommend_dose, hl, hf, DoseResult.isErr]

/-- C6: for two distinct input drugs that both fuzzy-resolve (score at or
above the threshold, non-empty canonical names), `find_ddi_local` returns
one `MatchedPair` per record equal to the resolved pair in either column
order (lowercased), with no deduplication; with exactly one matching record
exactly one pair is returned. -/
theorem claim_c6_pairwise_records :
    ∀ (eo : String → List String → Option (String × Q)) (th : Q)
      (records : List InteractionRecord) (a b ma mb : String),
      a ≠ b →
      fuzzyResolve eo th (ddiVocab records) a = some ma →
      fuzzyResolve eo th (ddiVocab records) b = some mb →
      ma ≠ "" → mb ≠ "" →
      find_ddi_local eo [a, b] records th =
        (records.filter (fun rec => decide (ddiRecMatches ma mb rec))).map
          (mkMatchedPair a b ma mb) ∧
      (records.countP (fun rec => decide (ddiRecMatches ma mb rec)) = 1 →
        (find_ddi_local eo [a, b] records th).length = 1) := by
  intro eo th records a b ma mb hab h1 h2 hma hmb
  have hmain : find_ddi_local eo [a, b] records th =
      (records.filter (fun rec => decide (ddiRecMatches ma mb rec))).map
        (mkMatchedPair a b ma mb) := by
    simp only [find_ddi_local, combinations2, List.map_nil, List.map_cons,
      List.append_nil, List.nil_append, List.flatMap_cons, List.flatMap_nil]
    simp only [h1, h2]
    rw [if_neg (by simp [hma, hmb])]
    rw [filterMap_if_eq records (ddiRecMatches ma mb) (mkMatchedPair a b ma mb)]
  refine ⟨hmain, fun hcount => ?_⟩
  rw [hmain, List.length_map, ← List.countP_eq_length_filter]
  exact hcount

/-- Witness for C6: warfarin/aspirin against a one-row table holding the
pair (capitalised in the table, matched lowercased), exactly one pair out. -/
theorem claim_c6_witness :
    ("warfarin" ≠ "aspirin" ∧
     fuzzyResolve exactScoreOne (Q.ofN 85) (ddiVocab sampleRecs) "warfarin" =
       some "warfarin" ∧
     fuzzyResolve exactScoreOne (Q.ofN 85) (ddiVocab sampleRecs) "aspirin" =
       some "aspirin" ∧
     sampleRecs.countP
       (fun rec => decide (ddiRecMatches "warfarin" "aspirin" rec)) = 1) ∧
    find_ddi_local exactScoreOne ["warfarin", "aspirin"] sampleRecs (Q.ofN 85) =
      (sampleRecs.filter
        (fun rec => decide (ddiRecMatches "warfarin" "aspirin" rec))).map
          (mkMatchedPair "warfarin" "aspirin" "warfarin" "aspirin") ∧
    (find_ddi_local exactScoreOne ["warfarin", "aspirin"] sampleRecs
        (Q.ofN 85)).length = 1 :=
  ⟨⟨by decide, by decide, by decide, by decide⟩,
   (claim_c6_pairwise_records exactScoreOne (Q.ofN 85) sampleRecs "warfarin"
     "aspirin" "warfarin" "aspirin" (by decide) (by decide) (by decide)
     (by decide) (by decide)).1,
   (claim_c6_pairwise_records exactScoreOne (Q.ofN 85) sampleRecs "warfarin"
     "aspirin" "warfarin" "aspirin" (by decide) (by decide) (by decide)
     (by decide) (by decide)).2 (by decide)⟩

/-- C7: an input drug whose fuzzy resolution fails is excluded from every
returned pair (no error is raised — the function is total), and an empty
records list yields the empty result for any scorer and names. -/
theorem claim_c7_unmatched_excluded :
    (∀ (eo : String → List String → Option (String × Q)) (th : Q)
       (names : List String) (records : List InteractionRecord) (d : String),
      fuzzyResolve eo th (ddiVocab records) d = none →
      ∀ p ∈ find_ddi_local eo names records th,
        p.drug_a ≠ d ∧ p.drug_b ≠ d) ∧
    (∀ (eo : String → List String → Option (String × Q)) (th : Q)
       (names : List String),
      find_ddi_local eo names ([] : List InteractionRecord) th = []) := by
  constructor
  · intro eo th names records d hd p hp
    simp only [find_ddi_local, List.mem_flatMap] at hp
    obtain ⟨q, hq, hpq⟩ := hp
    cases h1 : fuzzyResolve eo th (ddiVocab records) q.1 with
    | none => rw [h1] at hpq; simp at hpq
    | some ma =>
      cases h2 : fuzzyResolve eo th (ddiVocab records) q.2 with
      | none => rw [h1, h2] at hpq; simp at hpq
      | some mb =>
        rw [h1, h2] at hpq
        have hpq2 : p ∈ (if ma = "" ∨ mb = "" then ([] : List MatchedPair)
            else records.filterMap (fun rec =>
              if ddiRecMatches ma mb rec then
                some (mkMatchedPair q.1 q.2 ma mb rec)
              else none)) := hpq
        by_cases he : ma = "" ∨ mb = ""
        · rw [if_pos he] at hpq2; simp at hpq2
        · rw [if_neg he] at hpq2
          rw [List.mem_filterMap] at hpq2
          obtain ⟨rec, hrec, hmk⟩ := hpq2
          by_cases hm : ddiRecMatches ma mb rec
          · rw [if_pos hm] at hmk
            have heq := Option.some.inj hmk
            constructor
            · intro hda
              rw [← heq] at hda
              simp only [mkMatchedPair] at hda
              rw [hda] at h1
              exact Option.noConfusion (hd.symm.trans h1)
            · intro hdb
              rw [← heq] at hdb
              simp only [mkMatchedPair] at hdb
              rw [hdb] at h2
              exact Option.noConfusion (hd.symm.trans h2)
          · rw [if_neg hm] at hmk
            exact Option.noConfusion hmk
  · intro eo th names
    simp only [find_ddi_local]
    generalize combinations2 names = l
    induction l with
    | nil => rfl
    | cons p l ih =>
      rw [List.flatMap_cons, ih, List.append_nil]
      cases fuzzyResolve eo th (ddiVocab []) p.1 <;>
        cases fuzzyResolve eo th (ddiVocab []) p.2 <;>
          simp

/-- Witness for C7: three input drugs of which `"xyz"` fails resolution;
the produced pair avoids it, and the empty-records case is empty. -/
theorem claim_c7_witness :
    (fuzzyResolve exactScoreOne (Q.ofN 85) (ddiVocab sampleRecs) "xyz" = none ∧
     (⟨"warfarin", "aspirin", "warfarin", "aspirin", some "High",
        some "Bleeding risk", "local"⟩ : MatchedPair) ∈
       find_ddi_local exactScoreOne ["warfarin", "aspirin", "xyz"] sampleRecs
         (Q.ofN 85)) ∧
    ((⟨"warfarin", "aspirin", "warfarin", "aspirin", some "High",
        some "Bleeding risk", "local"⟩ : MatchedPair).drug_a ≠ "xyz" ∧
     (⟨"warfarin", "aspirin", "warfarin", "aspirin", some "High",
        some "Bleeding risk", "local"⟩ : MatchedPair).drug_b ≠ "xyz") ∧
    find_ddi_local exactScoreOne ["warfarin"] ([] : List InteractionRecord)
      (Q.ofN 85) = [] :=
  ⟨⟨by decide, by decide⟩,
   claim_c7_unmatched_excluded.1 exactScoreOne (Q.ofN 85)
     ["warfarin", "aspirin", "xyz"] sampleRecs "xyz" (by decide)
     ⟨"warfarin", "aspirin", "warfarin", "aspirin", some "High",
       some "Bleeding risk", "local"⟩ (by decide),
   claim_c7_unmatched_excluded.2 exactScoreOne (Q.ofN 85) ["warfarin"]⟩
